import Mathlib

/-!
Verification of the membrane-bridge repository against its specification.

Shallow embedding of the core data model and operations:
* the two-step ownership module (`azero/contracts/ownable/lib.rs`),
* the remote signer adapter (`relayer/signer_client/src/lib.rs`),
* the membrane contract constructor (`azero/contracts/membrane/lib.rs`),
* the request-hash encodings (relayer handler in
  `relayer/src/listeners/azero.rs` and the e2e-test `hash_request_data`
  in `azero/contracts/tests/lib.rs`),
* the relayer listener's pending-block / checkpoint protocol
  (`relayer/src/listeners/azero.rs`),
* the azero contract adapter (`relayer/relayer/src/contracts/azero.rs`).

Account ids and 32-byte hashes are modelled as natural numbers and byte
lists; machine integers (`u128`, `u32`) are modelled as `Nat` with explicit
`% 2 ^ w` or `% 256` where wrap-around matters.
-/

namespace MembraneBridge

/-! ## Ownership module (`azero/contracts/ownable/lib.rs`) -/

/-- Model of an ink AccountId (an opaque 32-byte identifier). -/
abbrev AccountId := Nat

/-- The `Error` enum of the ownable crate. -/
inductive OwnableError where
  | UnauthorizedAccount (caller : AccountId)
  | NoPendingOwner
  | CorruptedStorage
deriving DecidableEq, Repr

/-- The `Data` storage struct of the ownable crate. -/
structure OwnableData where
  owner : AccountId
  pending_owner : Option AccountId
deriving DecidableEq, Repr

/-- `Data::transfer_ownership`: the method mutates `self` and returns an
`OwnableResult<()>`; we return the post state paired with the result.
On the error path the Rust method returns before mutating, so the state
is returned unchanged. -/
def transfer_ownership (self : OwnableData) (caller new_owner : AccountId) :
    OwnableData × Except OwnableError Unit :=
  if caller ≠ self.owner then
    (self, .error (.UnauthorizedAccount caller))
  else
    (⟨self.owner, some new_owner⟩, .ok ())

/-- `Data::accept_ownership`: `pending_owner.ok_or(NoPendingOwner)?`, then the
caller must equal the pending owner; on success the pending owner becomes the
owner and the pending slot is cleared. -/
def accept_ownership (self : OwnableData) (caller : AccountId) :
    OwnableData × Except OwnableError Unit :=
  match self.pending_owner with
  | none => (self, .error .NoPendingOwner)
  | some pending_owner =>
    if caller ≠ pending_owner then
      (self, .error (.UnauthorizedAccount caller))
    else
      (⟨pending_owner, none⟩, .ok ())

/-- `Data::ensure_owner`. -/
def ensure_owner (self : OwnableData) (caller : AccountId) :
    Except OwnableError Unit :=
  if caller ≠ self.owner then .error (.UnauthorizedAccount caller) else .ok ()

/-- C7: `transfer_ownership(new)` sets the pending owner when called by the
current owner and fails with `UnauthorizedAccount(caller)` leaving the state
unchanged otherwise; `accept_ownership` succeeds exactly when a pending owner
exists and the caller equals it (then the pending owner becomes the owner and
the pending slot is cleared), fails with `NoPendingOwner` when no transfer is
pending and with `UnauthorizedAccount(caller)` when the caller is not the
pending owner, leaving the state unchanged in both error cases. -/
theorem ownable_two_step (d : OwnableData) (caller new_owner : AccountId) :
    (caller = d.owner →
      transfer_ownership d caller new_owner = (⟨d.owner, some new_owner⟩, .ok ())) ∧
    (caller ≠ d.owner →
      transfer_ownership d caller new_owner = (d, .error (.UnauthorizedAccount caller))) ∧
    (d.pending_owner = none →
      accept_ownership d caller = (d, .error .NoPendingOwner)) ∧
    (∀ p, d.pending_owner = some p → caller = p →
      accept_ownership d caller = (⟨p, none⟩, .ok ())) ∧
    (∀ p, d.pending_owner = some p → caller ≠ p →
      accept_ownership d caller = (d, .error (.UnauthorizedAccount caller))) ∧
    ((accept_ownership d caller).2 = .ok () ↔
      ∃ p, d.pending_owner = some p ∧ caller = p) := by
  refine ⟨?_, ?_, ?_, ?_, ?_, ?_⟩
  · intro h
    simp [transfer_ownership, h]
  · intro h
    simp [transfer_ownership, h]
  · intro h
    simp [accept_ownership, h]
  · intro p hp hc
    simp [accept_ownership, hp, hc]
  · intro p hp hc
    simp [accept_ownership, hp, hc]
  · cases hp : d.pending_owner with
    | none => simp [accept_ownership, hp]
    | some p =>
      by_cases hc : caller = p
      · simp [accept_ownership, hp, hc]
      · simp [accept_ownership, hp, hc]

/-- Witness for C7: with owner `0`, pending owner `1`, caller `1`,
`accept_ownership` installs `1` as the owner and clears the pending slot. -/
theorem ownable_two_step_witness :
    accept_ownership ⟨0, some 1⟩ 1 = (⟨1, none⟩, .ok ()) :=
  (ownable_two_step ⟨0, some 1⟩ 1 2).2.2.2.1 1 rfl rfl

/-! ## Remote signer adapter (`relayer/signer_client/src/lib.rs`) -/

/-- The `Error` enum of the signer client; the payloads of the IO and Serde
variants are irrelevant to the protocol logic and are dropped. -/
inductive SignerError where
  | IOErr
  | SerdeErr
  | InvalidResponse
deriving DecidableEq, Repr

/-- The `Response` enum of the signer protocol. Signatures and account ids are
opaque values, modelled as naturals; payloads are byte lists. -/
inductive SignerResponse where
  | Pong
  | AccountIdResp (account_id : AccountId)
  | Signed (payload : List Nat) (account_id : AccountId) (signature : Nat)
deriving DecidableEq, Repr

/-- The `OnceOffSigner` struct. -/
structure OnceOffSigner where
  payload : List Nat
  signature : Nat
  account_id : AccountId
deriving DecidableEq, Repr

/-- `Client::prepare_signer`: sends `Sign { payload }`, then accepts only a
`Signed` response whose echoed payload equals the requested payload; every
other response yields `InvalidResponse`. The response received from the
socket is the second argument. -/
def prepare_signer (payload : List Nat) (signed : SignerResponse) :
    Except SignerError OnceOffSigner :=
  match signed with
  | .Signed return_payload account_id signature =>
    if return_payload = payload then
      .ok ⟨return_payload, signature, account_id⟩
    else
      .error .InvalidResponse
  | _ => .error .InvalidResponse

/-- `Signer::sign` for `OnceOffSigner`: asserts that the payload to sign is
the prepared payload and returns the stored signature; the assertion failure
(a panic) is modelled as `none`. -/
def onceOffSign (self : OnceOffSigner) (signer_payload : List Nat) : Option Nat :=
  if signer_payload = self.payload then some self.signature else none

/-- C8: a `Signed` response is accepted only when the echoed payload equals the
requested payload byte-for-byte; any `Signed` response with a different payload
and any response of another variant yields `InvalidResponse`; the resulting
one-off signer returns the signature exactly for the prepared payload. -/
theorem remote_signer_echo_check (req : List Nat) (resp : SignerResponse) :
    (∀ s, prepare_signer req resp = .ok s →
      resp = .Signed req s.account_id s.signature ∧ s.payload = req ∧
      onceOffSign s req = some s.signature ∧
      ∀ p, p ≠ req → onceOffSign s p = none) ∧
    ((∀ id sig, resp ≠ .Signed req id sig) →
      prepare_signer req resp = .error .InvalidResponse) := by
  constructor
  · intro s hs
    cases resp with
    | Signed p id sig =>
      by_cases hp : p = req
      · simp only [prepare_signer, if_pos hp, Except.ok.injEq] at hs
        subst hs
        subst hp
        refine ⟨rfl, rfl, ?_, ?_⟩
        · simp [onceOffSign]
        · intro q hq
          simp [onceOffSign, hq]
      · simp [prepare_signer, if_neg hp] at hs
    | Pong => simp [prepare_signer] at hs
    | AccountIdResp id => simp [prepare_signer] at hs
  · intro h
    cases resp with
    | Signed p id sig =>
      have hp : p ≠ req := by
        intro hcontra
        exact h id sig (by rw [hcontra])
      simp [prepare_signer, if_neg hp]
    | Pong => simp [prepare_signer]
    | AccountIdResp id => simp [prepare_signer]

/-- Witness for C8: requesting payload `[1, 2, 3]` and receiving
`Signed { payload: [1, 2, 3], account_id: 5, signature: 7 }` yields a signer
that signs `[1, 2, 3]` with `7` and refuses `[9]`. -/
theorem remote_signer_echo_check_witness :
    onceOffSign ⟨[1, 2, 3], 7, 5⟩ [1, 2, 3] = some 7 ∧
    onceOffSign ⟨[1, 2, 3], 7, 5⟩ [9] = none := by
  have h := (remote_signer_echo_check [1, 2, 3] (.Signed [1, 2, 3] 5 7)).1
    ⟨[1, 2, 3], 7, 5⟩ rfl
  exact ⟨h.2.2.1, h.2.2.2 [9] (by decide)⟩

/-! ## Membrane contract constructor (`azero/contracts/membrane/lib.rs`) -/

/-- The `Request` struct stored under a request hash. -/
structure ContractRequest where
  dest_token_address : AccountId
  dest_token_amount : Nat
  dest_receiver_address : AccountId
  signature_count : Nat
deriving DecidableEq, Repr

/-- The `MembraneError` enum of the membrane contract. It has a single
variant; in particular there is no `DuplicateCommitteeMember` variant. -/
inductive MembraneError where
  | NotGuardian
deriving DecidableEq, Repr

/-- The `Membrane` storage struct. `Mapping<K, ()>` becomes a finite set of
keys, `Mapping<K, V>` an association list; 32-byte hash keys are byte lists. -/
structure Membrane where
  request_nonce : Nat
  signature_threshold : Nat
  pending_requests : List (List Nat × ContractRequest)
  request_signatures : Finset (List Nat × AccountId)
  processed_requests : Finset (List Nat)
  guardians : Finset AccountId

/-- `Membrane::new`: inserts each guardian into the guardian set (a repeated
insert silently overwrites) and stores the threshold as given. The constructor
returns `Self`, not a `Result`: there is no validation of any kind. -/
def Membrane.new (guardians : List AccountId) (signature_threshold : Nat) :
    Membrane :=
  let guardians_set := guardians.foldl (fun acc account => insert account acc) (∅ : Finset AccountId)
  ⟨0, signature_threshold, [], ∅, ∅, guardians_set⟩

/-- C3 (code bug): the committee-creating constructor `Membrane::new` performs
no validation: called with the duplicated guardian list `[0, 0]` and threshold
`5` it succeeds, silently collapsing the duplicates into a single stored
guardian while keeping threshold `5`, so the stored committee violates
`threshold ≤ |members|`; moreover the contract's error enum has no
`DuplicateCommitteeMember` variant at all. -/
theorem membrane_new_no_committee_validation :
    (Membrane.new [0, 0] 5).guardians.card = 1 ∧
    (Membrane.new [0, 0] 5).signature_threshold = 5 ∧
    ¬ (Membrane.new [0, 0] 5).signature_threshold ≤ (Membrane.new [0, 0] 5).guardians.card ∧
    ∀ e : MembraneError, e = .NotGuardian := by
  refine ⟨by decide, by decide, by decide, ?_⟩
  intro e
  cases e
  rfl

/-! ## Request-hash encodings (claim C1)

The relayer handler (`relayer/src/listeners/azero.rs`, `handle_event`) hashes
`abi::encode(&[FixedBytes(dest_token), Uint(amount), FixedBytes(dest_receiver),
Uint(request_nonce)])` with Keccak-256. `abi::encode` encodes each static
token as one 32-byte word: a 32-byte `FixedBytes` is its raw bytes and a
`Uint` is the value as a 32-byte big-endian integer, so the preimage is the
128-byte string `dest_token32 ‖ amount_be32 ‖ dest_receiver32 ‖ nonce_be32`.

The contract-side e2e test (`azero/contracts/tests/lib.rs`,
`hash_request_data`) hashes the concatenation of the raw 32-byte token id,
`amount.to_le_bytes()` (16 bytes), the raw 32-byte receiver and
`request_nonce.to_le_bytes()` (16 bytes): a 96-byte preimage.

Both request hashes are Keccak-256 applied to these preimages, so comparing a
hash against "Keccak-256 of the 112-byte concatenation" of the claim amounts
to comparing the preimages (Keccak-256 itself is an external fixed function;
equal preimages give equal hashes, and the claim specifies the exact
preimage). -/

/-- The 16-byte little-endian encoding of a `u128` value (`to_le_bytes`). -/
def u128_le16 (n : Nat) : List Nat :=
  (List.range 16).map fun i => n / 256 ^ i % 256

/-- The 32-byte big-endian word that `abi::encode` produces for a `Uint`. -/
def u256_be32 (n : Nat) : List Nat :=
  (List.range 32).map fun i => n / 256 ^ (31 - i) % 256

/-- The preimage hashed by the relayer handler `handle_event`:
`abi::encode` of `[FixedBytes(token), Uint(amount), FixedBytes(receiver),
Uint(nonce)]` (no committee id, 32-byte big-endian integers). -/
def abi_encode_request (dest_token_address : List Nat) (amount : Nat)
    (dest_receiver_address : List Nat) (request_nonce : Nat) : List Nat :=
  dest_token_address ++ u256_be32 amount ++ dest_receiver_address ++
    u256_be32 request_nonce

/-- The preimage hashed by the e2e test `hash_request_data`
(`azero/contracts/tests/lib.rs`): raw token, 16-byte LE amount, raw receiver,
16-byte LE nonce (no committee id). -/
def e2e_hash_request_preimage (token_address : List Nat) (amount : Nat)
    (receiver_address : List Nat) (request_nonce : Nat) : List Nat :=
  token_address ++ u128_le16 amount ++ receiver_address ++
    u128_le16 request_nonce

/-- Modelled from the spec: the 112-byte request-hash preimage
`committee_id_le16 ‖ dest_token32 ‖ amount_le16 ‖ dest_receiver32 ‖ nonce_le16`
of spec sections 3 and 6 (the `shared` crate's `hash_request_data`, which the
drink tests call with a committee id, is absent from `src/`). -/
def spec_request_preimage (committee_id : Nat) (dest_token : List Nat)
    (amount : Nat) (dest_receiver : List Nat) (nonce : Nat) : List Nat :=
  u128_le16 committee_id ++ dest_token ++ u128_le16 amount ++ dest_receiver ++
    u128_le16 nonce

set_option maxRecDepth 10000

/-- C1 (code bug): at the concrete request tuple
`(committee_id = 5, dest_token = 0x0101…01, amount = 3,
dest_receiver = 0x0202…02, nonce = 4)` the relayer hashes a 128-byte
preimage, the contract-side test hashes a 96-byte preimage, and the claimed
shared encoding is 112 bytes; all three preimages are pairwise distinct, so
neither computed request hash is the Keccak-256 of the claimed 112-byte
concatenation, and the two sides do not even hash the same bytes as each
other. -/
theorem request_hash_encodings_disagree :
    (abi_encode_request (List.replicate 32 1) 3 (List.replicate 32 2) 4).length = 128 ∧
    (e2e_hash_request_preimage (List.replicate 32 1) 3 (List.replicate 32 2) 4).length = 96 ∧
    (spec_request_preimage 5 (List.replicate 32 1) 3 (List.replicate 32 2) 4).length = 112 ∧
    abi_encode_request (List.replicate 32 1) 3 (List.replicate 32 2) 4 ≠
      spec_request_preimage 5 (List.replicate 32 1) 3 (List.replicate 32 2) 4 ∧
    e2e_hash_request_preimage (List.replicate 32 1) 3 (List.replicate 32 2) 4 ≠
      spec_request_preimage 5 (List.replicate 32 1) 3 (List.replicate 32 2) 4 ∧
    abi_encode_request (List.replicate 32 1) 3 (List.replicate 32 2) 4 ≠
      e2e_hash_request_preimage (List.replicate 32 1) 3 (List.replicate 32 2) 4 := by
  refine ⟨?_, ?_, ?_, ?_, ?_, ?_⟩ <;> decide

/-! ## Azero contract adapter (`relayer/relayer/src/contracts/azero.rs`) -/

/-- The error enum of the destination bridge contract (the `most` contract's
error taxonomy, spec section 6), as decoded from a reverted dry run. The
contract itself is absent from `src/`; this enum is the decoded `Value`
carried by `DryRunReverted`. -/
inductive MostError where
  | Halted
  | ZeroTransferAmount
  | UnsupportedPair
  | BaseFeeTooLow
  | AmountBelowMinimum
  | InsufficientAllowance
  | HashDoesNotMatchData
  | NotInCommittee
  | UnknownCommittee
  | RequestAlreadySigned (signer : AccountId)
  | RequestAlreadyProcessed
  | NoMintPermission
deriving DecidableEq, Repr

/-- The `AzeroContractError` enum of the adapter. `DryRunReverted` carries
`Result<Value, anyhow::Error>`, the attempt at decoding the revert value. -/
inductive AzeroContractError where
  | AlephClient (msg : String)
  | NotAccountId (msg : String)
  | MissingOrInvalidField (msg : String)
  | DryRunReverted (value : Except String MostError)
  | DispatchError (msg : String)
deriving Repr

/-- Outcome of the node-side dry run of `receive_request` (the RPC result the
adapter inspects). -/
inductive DryRunOutcome where
  | dispatchError (msg : String)
  | reverted (decoded : Except String MostError)
  | success
deriving Repr

/-- The dry-run phase of `MostInstance::receive_request`: a dispatch error
becomes `DispatchError`, a revert is decoded and returned verbatim as
`DryRunReverted` (every revert is an error to the adapter, with no special
case for any contract error), and only a clean dry run lets the adapter
proceed to the signed submission. -/
def most_receive_request_dry_run (outcome : DryRunOutcome) :
    Except AzeroContractError Unit :=
  match outcome with
  | .dispatchError why => .error (.DispatchError why)
  | .reverted decoded_value => .error (.DryRunReverted decoded_value)
  | .success => .ok ()

/-- Classification of a `receive_request` submission by the relayer handler. -/
inductive HandlerOutcome where
  | submitted
  | idempotentNoOp
  | failed (e : AzeroContractError)
deriving Repr

/-- Modelled from the spec: the relayer handler's treatment of the dry-run
outcome of the destination-chain `receive_request` call. The `handlers`
module of the eth-to-azero relayer is declared in `relayer2/src/main.rs` but
its source is absent from `src/`; spec section 4.6 step 4 prescribes: dry-run
first, and a revert with `RequestAlreadyProcessed` or
`RequestAlreadySigned(self)` is treated as success (an idempotent no-op),
every other failure is an error. The adapter part
(`most_receive_request_dry_run`) is taken from the source. -/
def handle_receive_request (self : AccountId) (outcome : DryRunOutcome) :
    HandlerOutcome :=
  match most_receive_request_dry_run outcome with
  | .ok () => .submitted
  | .error (.DryRunReverted (.ok .RequestAlreadyProcessed)) => .idempotentNoOp
  | .error (.DryRunReverted (.ok (.RequestAlreadySigned signer))) =>
    if signer = self then .idempotentNoOp
    else .failed (.DryRunReverted (.ok (.RequestAlreadySigned signer)))
  | .error e => .failed e

/-- C2: when the dry run of the destination-chain `receive_request` reverts
with `RequestAlreadyProcessed`, or with `RequestAlreadySigned` for the
relayer's own signer, the handler treats the submission as an idempotent
no-op and does not fail. -/
theorem receive_request_idempotent_no_op (self : AccountId)
    (decoded : MostError)
    (h : decoded = .RequestAlreadyProcessed ∨ decoded = .RequestAlreadySigned self) :
    handle_receive_request self (.reverted (.ok decoded)) = .idempotentNoOp ∧
    ∀ e, handle_receive_request self (.reverted (.ok decoded)) ≠ .failed e := by
  rcases h with h | h <;> subst h <;>
    simp [handle_receive_request, most_receive_request_dry_run]

/-- Witness for C2: a dry run reverting with `RequestAlreadyProcessed` is an
idempotent no-op for signer `7`. -/
theorem receive_request_idempotent_no_op_witness :
    handle_receive_request 7 (.reverted (.ok .RequestAlreadyProcessed)) =
      .idempotentNoOp :=
  (receive_request_idempotent_no_op 7 .RequestAlreadyProcessed (Or.inl rfl)).1

/-! ## Event-data decoding (`decode_seq_field`, claim C10) -/

/-- Model of `contract_transcode::Value` restricted to the shapes
`decode_seq_field` distinguishes: an unsigned integer (`u128` in the source,
so an arbitrary natural here), a sequence, and anything else. -/
inductive TValue where
  | UInt (n : Nat)
  | SeqV (elems : List TValue)
  | other
deriving Repr

/-- The `try_fold` inside `decode_seq_field`: pushes `*x as u8` (truncation
modulo 256) for every `UInt` element and fails on any other element. -/
def try_fold_bytes : List TValue → List Nat → Except AzeroContractError (List Nat)
  | [], v => .ok v
  | .UInt x :: rest, v => try_fold_bytes rest (v ++ [x % 256])
  | _ :: _, _ =>
    .error (.MissingOrInvalidField
      "Seq under data field contains elements of incorrect type")

/-- `decode_seq_field`: looks the field up in the event-data map, requires a
`Seq`, converts every element with the `as u8` cast via `try_fold_bytes`, and
finally requires exactly 32 bytes (the `try_into` into `[u8; 32]`). -/
def decode_seq_field (data : List (String × TValue)) (field : String) :
    Except AzeroContractError (List Nat) :=
  match data.lookup field with
  | some (.SeqV seq_data) =>
    match try_fold_bytes seq_data [] with
    | .ok v =>
      if v.length = 32 then .ok v
      else .error (.MissingOrInvalidField
        "Seq under data field has incorrect length")
    | .error e => .error e
  | _ =>
    .error (.MissingOrInvalidField
      "Data field couldn't be found or has incorrect format")

lemma try_fold_bytes_uints (xs : List Nat) (acc : List Nat) :
    try_fold_bytes (xs.map TValue.UInt) acc = .ok (acc ++ xs.map (· % 256)) := by
  induction xs generalizing acc with
  | nil => simp [try_fold_bytes]
  | cons x rest ih =>
    simp only [List.map_cons, try_fold_bytes, ih, List.map, List.append_assoc,
      List.singleton_append]

/-- C10: whenever the field holds a sequence of exactly 32 unsigned-integer
values, `decode_seq_field` returns `Ok` with each element truncated modulo 256
(the `as u8` cast); elements above 255 are silently wrapped and never cause a
decode error. -/
theorem decode_seq_field_truncates (data : List (String × TValue))
    (field : String) (xs : List Nat)
    (hfield : data.lookup field = some (.SeqV (xs.map TValue.UInt)))
    (hlen : xs.length = 32) :
    decode_seq_field data field = .ok (xs.map (· % 256)) := by
  simp [decode_seq_field, hfield, try_fold_bytes_uints, hlen]

/-- Witness for C10: a 32-element sequence whose last element is 300 decodes
to `Ok` with the 300 wrapped to 44 rather than being rejected. -/
theorem decode_seq_field_truncates_witness :
    decode_seq_field
      [("dest_token_address",
        .SeqV ((List.replicate 31 7 ++ [300]).map TValue.UInt))]
      "dest_token_address" =
      .ok (List.replicate 31 7 ++ [44]) := by
  have h := decode_seq_field_truncates
    [("dest_token_address",
      .SeqV ((List.replicate 31 7 ++ [300]).map TValue.UInt))]
    "dest_token_address" (List.replicate 31 7 ++ [300]) (by rfl) (by decide)
  simpa using h

/-! ## Per-block event cap (`relayer/src/listeners/azero.rs`, claim C6) -/

/-- The constant `ALEPH_MAX_REQUESTS_PER_BLOCK`. -/
def ALEPH_MAX_REQUESTS_PER_BLOCK : Nat := 50

/-- The spawn loop of `handle_events`: for each event a task is pushed onto
`event_tasks`, and after each push the loop panics when
`event_tasks.len() >= ALEPH_MAX_REQUESTS_PER_BLOCK`. Events (and their
tasks) are opaque and modelled as naturals; a panic is the `error` case. -/
def spawn_event_tasks_loop : List Nat → List Nat → Except String (List Nat)
  | [], event_tasks => .ok event_tasks
  | event :: rest, event_tasks =>
    let event_tasks2 := event_tasks ++ [event]
    if ALEPH_MAX_REQUESTS_PER_BLOCK ≤ event_tasks2.length then
      .error "Too many send_request calls in one block: our benchmark is outdated."
    else
      spawn_event_tasks_loop rest event_tasks2

/-- The spawn phase of `handle_events` on the block's filtered event list
(starting from the empty `event_tasks` vector); on success the handler then
awaits every spawned task. -/
def handle_events_spawn (events : List Nat) : Except String (List Nat) :=
  spawn_event_tasks_loop events []

lemma spawn_event_tasks_loop_cons (e : Nat) (rest acc : List Nat) :
    spawn_event_tasks_loop (e :: rest) acc =
      if ALEPH_MAX_REQUESTS_PER_BLOCK ≤ (acc ++ [e]).length then
        .error "Too many send_request calls in one block: our benchmark is outdated."
      else
        spawn_event_tasks_loop rest (acc ++ [e]) := rfl

lemma spawn_event_tasks_loop_ok (events : List Nat) :
    ∀ acc : List Nat,
      acc.length + events.length < ALEPH_MAX_REQUESTS_PER_BLOCK →
      spawn_event_tasks_loop events acc = .ok (acc ++ events) := by
  induction events with
  | nil =>
    intro acc _
    simp [spawn_event_tasks_loop]
  | cons e rest ih =>
    intro acc h
    have hl : (acc ++ [e]).length = acc.length + 1 := by simp
    simp only [List.length_cons] at h
    have hnot : ¬ ALEPH_MAX_REQUESTS_PER_BLOCK ≤ (acc ++ [e]).length := by omega
    have hlen : (acc ++ [e]).length + rest.length < ALEPH_MAX_REQUESTS_PER_BLOCK := by
      omega
    rw [spawn_event_tasks_loop_cons, if_neg hnot, ih (acc ++ [e]) hlen]
    simp

lemma spawn_event_tasks_loop_err (events : List Nat) :
    ∀ acc : List Nat, events ≠ [] →
      ALEPH_MAX_REQUESTS_PER_BLOCK ≤ acc.length + events.length →
      spawn_event_tasks_loop events acc =
        .error "Too many send_request calls in one block: our benchmark is outdated." := by
  induction events with
  | nil =>
    intro acc hne _
    exact absurd rfl hne
  | cons e rest ih =>
    intro acc _ h
    have hl : (acc ++ [e]).length = acc.length + 1 := by simp
    simp only [List.length_cons] at h
    by_cases hcap : ALEPH_MAX_REQUESTS_PER_BLOCK ≤ (acc ++ [e]).length
    · rw [spawn_event_tasks_loop_cons, if_pos hcap]
    · have hrest : rest ≠ [] := by
        intro hr
        subst hr
        simp only [List.length_nil] at h
        omega
      have hlen : ALEPH_MAX_REQUESTS_PER_BLOCK ≤ (acc ++ [e]).length + rest.length := by
        omega
      rw [spawn_event_tasks_loop_cons, if_neg hcap]
      exact ih (acc ++ [e]) hrest hlen

/-- C6 counterexample: a block with exactly 50 bridge events — no more than
`ALEPH_MAX_REQUESTS_PER_BLOCK` — is not processed without aborting: the
handler panics, refuting both halves of the claim at this input. -/
theorem max_requests_at_fifty_counterexample :
    (List.replicate 50 (0 : Nat)).length ≤ ALEPH_MAX_REQUESTS_PER_BLOCK ∧
    handle_events_spawn (List.replicate 50 0) =
      .error "Too many send_request calls in one block: our benchmark is outdated." := by
  constructor
  · decide
  · rfl

/-- C6 as amended: the spawn phase returns all the block's event tasks without
aborting exactly when the block contains at most 49 bridge events, and the
loud abort (panic) occurs exactly when the block contains at least
`ALEPH_MAX_REQUESTS_PER_BLOCK` (50) bridge events. -/
theorem max_requests_per_block_amended (events : List Nat) :
    (handle_events_spawn events = .ok events ↔
      events.length < ALEPH_MAX_REQUESTS_PER_BLOCK) ∧
    (handle_events_spawn events =
        .error "Too many send_request calls in one block: our benchmark is outdated." ↔
      ALEPH_MAX_REQUESTS_PER_BLOCK ≤ events.length) := by
  by_cases h : events.length < ALEPH_MAX_REQUESTS_PER_BLOCK
  · have hok : handle_events_spawn events = .ok events := by
      have := spawn_event_tasks_loop_ok events []
        (by simpa using h)
      simpa [handle_events_spawn] using this
    constructor
    · exact ⟨fun _ => h, fun _ => hok⟩
    · constructor
      · intro herr
        rw [hok] at herr
        exact absurd herr (by simp)
      · intro hge
        omega
  · have hne : events ≠ [] := by
      intro he
      subst he
      simp [ALEPH_MAX_REQUESTS_PER_BLOCK] at h
    have herr := spawn_event_tasks_loop_err events [] hne
      (by simpa using Nat.le_of_not_lt h)
    have herr2 : handle_events_spawn events =
        .error "Too many send_request calls in one block: our benchmark is outdated." := by
      simpa [handle_events_spawn] using herr
    constructor
    · constructor
      · intro hok
        rw [herr2] at hok
        exact absurd hok (by simp)
      · intro hlt
        exact absurd hlt h
    · exact ⟨fun _ => Nat.le_of_not_lt h, fun _ => herr2⟩
/-! ## The per-block checkpoint computation (`handle_events`, claim C4)

The pending-blocks structure is a `BTreeSet<u32>`: an ordered set. Here it is
modelled concretely as a strictly-sorted list of block numbers, on which
`BTreeSet::first` is the head of the list; the theorem shows that the value
the code reads is the minimum of the set after the removal.

The checkpoint written is `earliest_still_pending - 1` computed on `u32`:
under the default release profile this subtraction wraps, so at
`earliest_still_pending = 0` the value written is `2 ^ 32 - 1` (with overflow
checks enabled the task would panic instead; either way the claimed value
`min - 1` is not written). The source comments that `earliest_still_pending`
"will never be 0", but nothing enforces this: with
`default_sync_from_block_azero = 0` and a fresh store the pending set is
seeded with 0, and a later block's task can complete first. -/

/-- The `u32` wrapping computation of `n - 1`
(`n.wrapping_sub(1) = (n + 2 ^ 32 - 1) % 2 ^ 32`), the release-profile
semantics of the checkpoint subtraction in `handle_events`. -/
def u32_wrapping_sub_one (n : Nat) : Nat :=
  (n + (2 ^ 32 - 1)) % 2 ^ 32

lemma u32_wrapping_sub_one_pos (m : Nat) (h1 : 1 ≤ m) (h2 : m ≤ 2 ^ 32) :
    u32_wrapping_sub_one m = m - 1 := by
  unfold u32_wrapping_sub_one
  have hpow : (2 : Nat) ^ 32 = 4294967296 := by norm_num
  rw [hpow] at h2 ⊢
  omega

lemma u32_wrapping_sub_one_zero : u32_wrapping_sub_one 0 = 2 ^ 32 - 1 := by
  decide

/-- `BTreeSet::first` on the sorted-list model: the least element, if any. -/
def btreeFirst (pending : List Nat) : Option Nat :=
  pending.head?

/-- The tail of `handle_events` (after all of the block's event tasks have
been awaited): remove the processed block number from the pending set, read
the earliest still-pending block with `first()` — whose `expect` panics
(`none`) when the set is empty — and write `earliest_still_pending - 1`
(a wrapping `u32` subtraction) to Redis. Returns the updated pending set and
the checkpoint value written. -/
def handle_events_update (pending : List Nat) (block_number : Nat) :
    Option (List Nat × Nat) :=
  match btreeFirst (pending.erase block_number) with
  | some earliest_still_pending =>
    some (pending.erase block_number, u32_wrapping_sub_one earliest_still_pending)
  | none => none

/-- C4 counterexample: blocks 0 and 5 are pending (block 0 synced from a
fresh store with `default_sync_from_block_azero = 0`) and block 5's task
completes first. After the removal the minimum of the pending set is 0, but
the checkpoint value written is the wrapped `2 ^ 32 - 1`, not `min - 1`. -/
theorem handle_events_checkpoint_counterexample :
    List.Sorted (· < ·) [0, 5] ∧
    handle_events_update [0, 5] 5 = some ([0], 2 ^ 32 - 1) ∧
    (0 : Nat) ∈ [(0 : Nat)] ∧ (∀ x ∈ [(0 : Nat)], (0 : Nat) ≤ x) ∧
    (2 ^ 32 - 1 : Nat) ≠ 0 - 1 := by
  refine ⟨by decide, by decide, by decide, by decide, by decide⟩

/-- C4 as amended: for a strictly-sorted pending set of `u32` block numbers,
after the processed block's number is removed, if the set is still non-empty
the checkpoint value written is the wrapping `u32` computation `min - 1` over
the minimum `min` of the post-removal pending set: it equals `min - 1`
whenever `min ≥ 1`, and wraps to `2 ^ 32 - 1` when `min = 0`. -/
theorem handle_events_checkpoint_amended (pending : List Nat) (block_number : Nat)
    (hs : List.Sorted (· < ·) pending)
    (hne : pending.erase block_number ≠ []) :
    ∃ m, m ∈ pending.erase block_number ∧
      (∀ x ∈ pending.erase block_number, m ≤ x) ∧
      handle_events_update pending block_number =
        some (pending.erase block_number, u32_wrapping_sub_one m) ∧
      (1 ≤ m → m ≤ 2 ^ 32 → u32_wrapping_sub_one m = m - 1) ∧
      (m = 0 → u32_wrapping_sub_one m = 2 ^ 32 - 1) := by
  have hs2 : List.Sorted (· < ·) (pending.erase block_number) :=
    hs.sublist (pending.erase_sublist block_number)
  obtain ⟨a, t, ht⟩ := List.exists_cons_of_ne_nil hne
  refine ⟨a, ?_, ?_, ?_, u32_wrapping_sub_one_pos a, ?_⟩
  · rw [ht]
    exact List.mem_cons_self a t
  · intro x hx
    rw [ht] at hx hs2
    rcases List.mem_cons.mp hx with h | h
    · omega
    · exact Nat.le_of_lt ((List.sorted_cons.mp hs2).1 x h)
  · simp [handle_events_update, btreeFirst, ht]
  · intro h0
    rw [h0]
    exact u32_wrapping_sub_one_zero

/-- Witness for C4: pending set `{3, 5, 7}`, block 3 processed: the block is
removed and the checkpoint written is `5 - 1 = 4`, with 5 the minimum of the
remaining set and no wrap. -/
theorem handle_events_checkpoint_amended_witness :
    ∃ m, m ∈ [5, 7] ∧ (∀ x ∈ [5, 7], m ≤ x) ∧
      handle_events_update [3, 5, 7] 3 = some ([5, 7], u32_wrapping_sub_one m) ∧
      (1 ≤ m → m ≤ 2 ^ 32 → u32_wrapping_sub_one m = m - 1) ∧
      (m = 0 → u32_wrapping_sub_one m = 2 ^ 32 - 1) := by
  have h := handle_events_checkpoint_amended [3, 5, 7] 3 (by decide) (by decide)
  simpa using h

/-! ## The listener pending-blocks / checkpoint protocol (claims C5 and C9)

`AlephZeroListener::run` seeds the pending set with the first unprocessed
block number, then for each block `b` (iterated in increasing order, across
loop iterations contiguously) first inserts `b + 1` into the pending set and
then spawns the handler task for `b`. Each `handle_events` task, when done,
removes its block from the pending set and — still holding the pending-set
mutex, so removals and checkpoint writes are serialized — writes the
wrapping-`u32` value `min(pending) - 1` to the durable store. The state
machine below has one transition per such atomic action; handler tasks may
complete in any order. The pending `BTreeSet` is abstracted as a `Finset`
whose `first()` is its minimum (justified by the ordered-list model above);
block numbers are `u32` values represented as naturals, so a run in which
block numbers stay within `u32` range — every run, since the chain reports
`u32` block numbers — has `insertedUpTo ≤ 2 ^ 32`. -/

/-- Listener state: the shared pending-blocks set, the set of blocks whose
handler task has been spawned and has not yet completed, the largest block
number inserted into the pending set, the next block number the main loop
will spawn, and the chronological list of checkpoint values written to the
durable store. -/
structure ListenerState where
  pending : Finset Nat
  inflight : Finset Nat
  insertedUpTo : Nat
  spawnedUpTo : Nat
  writes : List Nat

/-- Start of `AlephZeroListener::run`: the pending set is seeded with the
first unprocessed block number `f0` (read from the checkpoint store); no
task is in flight, nothing has been written. -/
def initListener (f0 : Nat) : ListenerState :=
  ⟨{f0}, ∅, f0, f0, []⟩

/-- One atomic action of the listener. `insertNext` and `spawnBlock` are the
two halves of one main-loop iteration for block `spawnedUpTo` (the insert of
`block + 1` happens strictly before the task spawn); `completeBlock` is the
mutex-protected tail of `handle_events` for any in-flight block, enabled when
`first()` succeeds on the set after the removal — its `expect` panics (no
transition) otherwise — and the checkpoint written is the wrapping `u32`
computation `min - 1`. -/
inductive ListenerStep : ListenerState → ListenerState → Prop
  | insertNext (s : ListenerState) (h : s.insertedUpTo = s.spawnedUpTo) :
      ListenerStep s
        ⟨insert (s.spawnedUpTo + 1) s.pending, s.inflight, s.spawnedUpTo + 1,
          s.spawnedUpTo, s.writes⟩
  | spawnBlock (s : ListenerState) (h : s.insertedUpTo = s.spawnedUpTo + 1) :
      ListenerStep s
        ⟨s.pending, insert s.spawnedUpTo s.inflight, s.insertedUpTo,
          s.spawnedUpTo + 1, s.writes⟩
  | completeBlock (s : ListenerState) (b : Nat) (hb : b ∈ s.inflight)
      (hne : (s.pending.erase b).Nonempty) :
      ListenerStep s
        ⟨s.pending.erase b, s.inflight.erase b, s.insertedUpTo, s.spawnedUpTo,
          s.writes ++ [u32_wrapping_sub_one ((s.pending.erase b).min' hne)]⟩

/-- The states an execution of the listener can reach from startup at `f0`. -/
inductive ListenerReachable (f0 : Nat) : ListenerState → Prop
  | init : ListenerReachable f0 (initListener f0)
  | step {s t : ListenerState} :
      ListenerReachable f0 s → ListenerStep s t → ListenerReachable f0 t

/-- The structural invariant of the listener, independent of the start block:
the largest inserted block is still pending and bounds the pending set, and
every in-flight block is strictly below it. -/
def ListenerInv (s : ListenerState) : Prop :=
  s.insertedUpTo ∈ s.pending ∧
  (∀ x ∈ s.pending, x ≤ s.insertedUpTo) ∧
  (∀ b ∈ s.inflight, b < s.insertedUpTo) ∧
  s.spawnedUpTo ≤ s.insertedUpTo

lemma listenerInv_init (f0 : Nat) : ListenerInv (initListener f0) := by
  unfold ListenerInv initListener
  dsimp only
  refine ⟨Finset.mem_singleton_self f0, ?_, ?_, le_refl f0⟩
  · intro x hx
    rw [Finset.mem_singleton] at hx
    omega
  · intro b hb
    exact absurd hb (Finset.not_mem_empty b)

lemma listenerInv_step {s t : ListenerState} (hinv : ListenerInv s)
    (hstep : ListenerStep s t) : ListenerInv t := by
  unfold ListenerInv at hinv ⊢
  obtain ⟨hmem, hub, hfl, hsp⟩ := hinv
  cases hstep with
  | insertNext h =>
    dsimp only
    refine ⟨Finset.mem_insert_self _ _, ?_, ?_, Nat.le_succ _⟩
    · intro x hx
      rcases Finset.mem_insert.mp hx with hx | hx
      · omega
      · have := hub x hx
        omega
    · intro b hb
      have := hfl b hb
      omega
  | spawnBlock h =>
    dsimp only
    refine ⟨hmem, hub, ?_, by omega⟩
    intro b hb
    rcases Finset.mem_insert.mp hb with hb | hb
    · omega
    · exact hfl b hb
  | completeBlock b hb hne =>
    dsimp only
    have hblt : b < s.insertedUpTo := hfl b hb
    refine ⟨Finset.mem_erase.mpr ⟨by omega, hmem⟩, ?_, ?_, hsp⟩
    · intro x hx
      exact hub x (Finset.mem_of_mem_erase hx)
    · intro c hc
      exact hfl c (Finset.mem_of_mem_erase hc)

lemma listenerInv_reachable {f0 : Nat} {s : ListenerState}
    (h : ListenerReachable f0 s) : ListenerInv s := by
  induction h with
  | init => exact listenerInv_init f0
  | step _ hstep ih => exact listenerInv_step ih hstep

/-- The monotonicity invariant, relative to the start block `f0`: every
pending block is at least `f0`, and — provided `f0 ≥ 1` and the block
numbers so far fit in `u32` (so no checkpoint subtraction has wrapped) — the
write log is chronologically non-decreasing and every written checkpoint is
below every block still pending. -/
def ListenerInvMono (f0 : Nat) (s : ListenerState) : Prop :=
  f0 ≤ s.spawnedUpTo ∧
  (∀ x ∈ s.pending, f0 ≤ x) ∧
  (1 ≤ f0 → s.insertedUpTo ≤ 2 ^ 32 →
    List.Sorted (· ≤ ·) s.writes ∧
    ∀ w ∈ s.writes, ∀ x ∈ s.pending, w ≤ x - 1)

lemma listenerInvMono_init (f0 : Nat) : ListenerInvMono f0 (initListener f0) := by
  unfold ListenerInvMono initListener
  dsimp only
  refine ⟨le_refl f0, ?_, ?_⟩
  · intro x hx
    rw [Finset.mem_singleton] at hx
    omega
  · intro _ _
    refine ⟨List.sorted_nil, ?_⟩
    intro w hw
    exact absurd hw (List.not_mem_nil w)

lemma listenerInvMono_step {f0 : Nat} {s t : ListenerState}
    (hgen : ListenerInv s) (hmono : ListenerInvMono f0 s)
    (hstep : ListenerStep s t) : ListenerInvMono f0 t := by
  obtain ⟨hmem, hub, hfl, hsp⟩ := hgen
  obtain ⟨hf0sp, hf0p, hcond⟩ := hmono
  unfold ListenerInvMono
  cases hstep with
  | insertNext h =>
    dsimp only
    refine ⟨hf0sp, ?_, ?_⟩
    · intro x hx
      rcases Finset.mem_insert.mp hx with hx | hx
      · omega
      · exact hf0p x hx
    · intro h1 hins
      have hins2 : s.insertedUpTo ≤ 2 ^ 32 := by omega
      obtain ⟨hsorted, hwlt⟩ := hcond h1 hins2
      refine ⟨hsorted, ?_⟩
      intro w hw x hx
      rcases Finset.mem_insert.mp hx with hx | hx
      · have := hwlt w hw s.insertedUpTo hmem
        omega
      · exact hwlt w hw x hx
  | spawnBlock h =>
    dsimp only
    exact ⟨by omega, hf0p, hcond⟩
  | completeBlock b hb hne =>
    dsimp only
    refine ⟨hf0sp, ?_, ?_⟩
    · intro x hx
      exact hf0p x (Finset.mem_of_mem_erase hx)
    · intro h1 hins
      obtain ⟨hsorted, hwlt⟩ := hcond h1 hins
      have hminmem : (s.pending.erase b).min' hne ∈ s.pending.erase b :=
        Finset.min'_mem _ hne
      have hminpend : (s.pending.erase b).min' hne ∈ s.pending :=
        Finset.mem_of_mem_erase hminmem
      have hm1 : 1 ≤ (s.pending.erase b).min' hne := by
        have := hf0p _ hminpend
        omega
      have hm2 : (s.pending.erase b).min' hne ≤ 2 ^ 32 := by
        have := hub _ hminpend
        omega
      have hwval : u32_wrapping_sub_one ((s.pending.erase b).min' hne) =
          (s.pending.erase b).min' hne - 1 :=
        u32_wrapping_sub_one_pos _ hm1 hm2
      rw [hwval]
      constructor
      · refine List.pairwise_append.mpr ⟨hsorted, ?_, ?_⟩
        · simp
        · intro w hw y hy
          rw [List.mem_singleton] at hy
          subst hy
          exact hwlt w hw _ hminpend
      · intro w hw x hx
        rcases List.mem_append.mp hw with hw | hw
        · exact hwlt w hw x (Finset.mem_of_mem_erase hx)
        · rw [List.mem_singleton] at hw
          subst hw
          have := Finset.min'_le (s.pending.erase b) x hx
          omega

lemma listenerInvMono_reachable {f0 : Nat} {s : ListenerState}
    (h : ListenerReachable f0 s) : ListenerInvMono f0 s := by
  induction h with
  | init => exact listenerInvMono_init f0
  | step hprev hstep ih =>
    exact listenerInvMono_step (listenerInv_reachable hprev) ih hstep

/-- A concrete execution from a fresh store with
`default_sync_from_block_azero = 0`: blocks 0 and 1 are dispatched, block 1's
task completes first — the minimum of the pending set is then 0, so the `u32`
subtraction wraps and `2 ^ 32 - 1` is written — and block 0's task completes
next, writing 1. -/
lemma listenerReachable_wrap_trace :
    ListenerReachable 0 ⟨{2}, ∅, 2, 2, [2 ^ 32 - 1, 1]⟩ := by
  have h1 : ListenerReachable 0 ⟨insert 1 {0}, ∅, 1, 0, []⟩ :=
    .step .init (.insertNext (initListener 0) rfl)
  have h2 : ListenerReachable 0 ⟨insert 1 {0}, insert 0 ∅, 1, 1, []⟩ :=
    .step h1 (.spawnBlock ⟨insert 1 {0}, ∅, 1, 0, []⟩ rfl)
  have h3 : ListenerReachable 0 ⟨insert 2 (insert 1 {0}), insert 0 ∅, 2, 1, []⟩ :=
    .step h2 (.insertNext ⟨insert 1 {0}, insert 0 ∅, 1, 1, []⟩ rfl)
  have h4 : ListenerReachable 0
      ⟨insert 2 (insert 1 {0}), insert 1 (insert 0 ∅), 2, 2, []⟩ :=
    .step h3 (.spawnBlock ⟨insert 2 (insert 1 {0}), insert 0 ∅, 2, 1, []⟩ rfl)
  have hb1 : 1 ∈ insert 1 (insert 0 (∅ : Finset Nat)) := Finset.mem_insert_self 1 _
  have hne1 : ((insert 2 (insert 1 ({0} : Finset Nat))).erase 1).Nonempty := by decide
  have h5 := ListenerReachable.step h4
    (.completeBlock ⟨insert 2 (insert 1 {0}), insert 1 (insert 0 ∅), 2, 2, []⟩ 1 hb1 hne1)
  have hb2 : 0 ∈ (insert 1 (insert 0 (∅ : Finset Nat))).erase 1 := by decide
  have hne2 :
      (((insert 2 (insert 1 ({0} : Finset Nat))).erase 1).erase 0).Nonempty := by decide
  have h6' : ListenerReachable 0
      ⟨((insert 2 (insert 1 ({0} : Finset Nat))).erase 1).erase 0,
        ((insert 1 (insert 0 (∅ : Finset Nat))).erase 1).erase 0, 2, 2,
        [u32_wrapping_sub_one (((insert 2 (insert 1 ({0} : Finset Nat))).erase 1).min' hne1),
          u32_wrapping_sub_one
            ((((insert 2 (insert 1 ({0} : Finset Nat))).erase 1).erase 0).min' hne2)]⟩ :=
    ListenerReachable.step h5
      (.completeBlock _ 0 hb2 hne2)
  have hmin1 : ((insert 2 (insert 1 ({0} : Finset Nat))).erase 1).min' hne1 = 0 :=
    le_antisymm (Finset.min'_le _ 0 (by decide)) (Nat.zero_le _)
  have hmin2 :
      ((((insert 2 (insert 1 ({0} : Finset Nat))).erase 1).erase 0).min' hne2) = 2 :=
    le_antisymm (Finset.min'_le _ 2 (by decide)) (Finset.le_min' _ hne2 2 (by decide))
  rw [hmin1, hmin2] at h6'
  have hp : ((insert 2 (insert 1 ({0} : Finset Nat))).erase 1).erase 0 = {2} := by decide
  have hi : ((insert 1 (insert 0 (∅ : Finset Nat))).erase 1).erase 0 = ∅ := by decide
  rw [hp, hi] at h6'
  have hw0 : u32_wrapping_sub_one 0 = 2 ^ 32 - 1 := u32_wrapping_sub_one_zero
  have hw2 : u32_wrapping_sub_one 2 = 1 := by decide
  rw [hw0, hw2] at h6'
  exact h6'

/-- C5 counterexample: an execution starting from first unprocessed block 0
reaches a state whose durable write log is `[2 ^ 32 - 1, 1]` — the wrapped
checkpoint `u32::MAX` followed by the strictly smaller value 1 — so the
sequence of checkpoint values written is not non-decreasing. -/
theorem checkpoint_monotone_counterexample :
    ListenerReachable 0 ⟨{2}, ∅, 2, 2, [2 ^ 32 - 1, 1]⟩ ∧
    ¬ List.Sorted (· ≤ ·) (⟨{2}, ∅, 2, 2, [2 ^ 32 - 1, 1]⟩ : ListenerState).writes := by
  refine ⟨listenerReachable_wrap_trace, ?_⟩
  intro hs
  have h12 : (2 ^ 32 - 1 : Nat) ≤ 1 :=
    (List.pairwise_cons.mp hs).1 1 (List.mem_singleton_self 1)
  have hpow : (2 : Nat) ^ 32 - 1 = 4294967295 := by norm_num
  rw [hpow] at h12
  omega

/-- C5 as amended: for every execution of the listener that starts from a
first unprocessed block number `f0 ≥ 1` (and whose block numbers fit in
`u32`, as the chain's `u32` block numbers always do), the chronological
sequence of checkpoint values written to the durable store is non-decreasing.
Starting from `f0 = 0`, the wrapped write `2 ^ 32 - 1` followed by a smaller
value is reachable. -/
theorem checkpoint_monotone_amended (f0 : Nat) (s : ListenerState)
    (h : ListenerReachable f0 s) (hf0 : 1 ≤ f0)
    (hbound : s.insertedUpTo ≤ 2 ^ 32) :
    List.Sorted (· ≤ ·) s.writes :=
  ((listenerInvMono_reachable h).2.2 hf0 hbound).1

/-- A concrete three-step execution from block 1: insert block 2, spawn the
task for block 1, and let that task complete; the completion writes the
checkpoint `min({2}) - 1 = 1` with no wrap. -/
lemma listenerReachable_example_one :
    ListenerReachable 1 ⟨{2}, ∅, 2, 2, [1]⟩ := by
  have h1 : ListenerReachable 1 ⟨insert 2 {1}, ∅, 2, 1, []⟩ :=
    .step .init (.insertNext (initListener 1) rfl)
  have h2 : ListenerReachable 1 ⟨insert 2 {1}, insert 1 ∅, 2, 2, []⟩ :=
    .step h1 (.spawnBlock ⟨insert 2 {1}, ∅, 2, 1, []⟩ rfl)
  have hb : 1 ∈ insert 1 (∅ : Finset Nat) := Finset.mem_insert_self 1 ∅
  have hne : ((insert 2 ({1} : Finset Nat)).erase 1).Nonempty := by decide
  have h3 : ListenerReachable 1
      ⟨(insert 2 ({1} : Finset Nat)).erase 1, (insert 1 (∅ : Finset Nat)).erase 1, 2, 2,
        [u32_wrapping_sub_one (((insert 2 ({1} : Finset Nat)).erase 1).min' hne)]⟩ :=
    ListenerReachable.step h2
      (.completeBlock ⟨insert 2 {1}, insert 1 ∅, 2, 2, []⟩ 1 hb hne)
  have hmin : ((insert 2 ({1} : Finset Nat)).erase 1).min' hne = 2 :=
    le_antisymm (Finset.min'_le _ 2 (by decide)) (Finset.le_min' _ hne 2 (by decide))
  rw [hmin] at h3
  have hp : (insert 2 ({1} : Finset Nat)).erase 1 = {2} := by decide
  have hi : (insert 1 (∅ : Finset Nat)).erase 1 = ∅ := by decide
  have hw : u32_wrapping_sub_one 2 = 1 := by decide
  rw [hp, hi, hw] at h3
  exact h3

/-- Witness for C5 (amended): along the concrete three-step execution from
block 1 the write log `[1]` is non-decreasing. -/
theorem checkpoint_monotone_amended_witness :
    List.Sorted (· ≤ ·) (⟨{2}, ∅, 2, 2, [1]⟩ : ListenerState).writes :=
  checkpoint_monotone_amended 1 ⟨{2}, ∅, 2, 2, [1]⟩ listenerReachable_example_one
    (by decide) (by decide)

/-- C9: in every reachable state the pending set is non-empty, and for every
in-flight block the pending set stays non-empty even after that block is
removed: the `first().expect` read after a removal never fails. -/
theorem pending_blocks_never_empty (f0 : Nat) (s : ListenerState)
    (h : ListenerReachable f0 s) :
    s.pending.Nonempty ∧
    ∀ b ∈ s.inflight, (s.pending.erase b).Nonempty := by
  obtain ⟨hmem, _, hfl, _⟩ := listenerInv_reachable h
  refine ⟨⟨s.insertedUpTo, hmem⟩, ?_⟩
  intro b hb
  have hblt : b < s.insertedUpTo := hfl b hb
  exact ⟨s.insertedUpTo, Finset.mem_erase.mpr ⟨by omega, hmem⟩⟩

/-- Witness for C9: in the reachable state where block 0 is in flight with
pending set `{0, 1}`, the pending set stays non-empty after block 0 is
removed. -/
theorem pending_blocks_never_empty_witness :
    ((insert 1 ({0} : Finset Nat)).erase 0).Nonempty := by
  have h2 : ListenerReachable 0 ⟨insert 1 {0}, insert 0 ∅, 1, 1, []⟩ :=
    .step (.step .init (.insertNext (initListener 0) rfl))
      (.spawnBlock ⟨insert 1 {0}, ∅, 1, 0, []⟩ rfl)
  exact (pending_blocks_never_empty 0 ⟨insert 1 {0}, insert 0 ∅, 1, 1, []⟩ h2).2 0
    (Finset.mem_insert_self 0 ∅)

end MembraneBridge
